import Mathlib

set_option autoImplicit false

/-!
Verification of the weighted-span HTML rendering module
(`eli5/formatters/html.py`) against its specification.

Numbers: Python floats are modelled as exact rationals (`ℚ`); the one
floating-point power (`** 0.7` in `_weight_color`) is modelled as a real
exponentiation, so color strings involving it are noncomputable but all
structural facts about them remain provable.  A Python exception is
modelled as `Option.none` of the function's result type.
-/

namespace Eli5

/-! ### Generic models of Python built-ins -/

/-- Model of `str.startswith`: `listStarts s p` is true iff `p` is an initial
segment of `s` (character lists). -/
def listStarts : List Char → List Char → Bool
  | _, [] => true
  | [], _ :: _ => false
  | c :: cs, d :: ds => c == d && listStarts cs ds

/-- Model of Python `s.startswith(p)`. -/
def pyStartsWith (s p : String) : Bool := listStarts s.data p.data

/-- Round half to even, as Python's float formatting does. -/
def rheInt {α : Type} [LinearOrderedField α] [FloorRing α] (x : α) : ℤ :=
  if x - (⌊x⌋ : α) < 1/2 then ⌊x⌋
  else if 1/2 < x - (⌊x⌋ : α) then ⌊x⌋ + 1
  else if ⌊x⌋ % 2 = 0 then ⌊x⌋ else ⌊x⌋ + 1

/-- Left-pad a digit string with zeros to length `n`. -/
def padZeros (n : ℕ) (s : String) : String :=
  String.mk (List.replicate (n - s.length) '0') ++ s

/-- Model of Python `'{:.Nf}'.format(x)`: fixed-point rendering with
`digits` digits after the decimal point, rounding half to even. -/
def formatFixed {α : Type} [LinearOrderedField α] [FloorRing α] (digits : ℕ) (x : α) : String :=
  let m := rheInt (x * (10:α)^digits)
  (if m < 0 then "-" else "") ++ toString (m.natAbs / 10^digits) ++
    (if digits = 0 then "" else "." ++ padZeros digits (toString (m.natAbs % 10^digits)))

/-- Model of Python `'{:.N%}'.format(x)`: `x * 100` rendered fixed-point,
followed by a percent sign. -/
def formatPct {α : Type} [LinearOrderedField α] [FloorRing α] (digits : ℕ) (x : α) : String :=
  formatFixed digits (x * 100) ++ "%"

/-- Model of Python `max(iterable)` over numbers: `none` on the empty list
(where Python raises `ValueError`). -/
def pyListMax : List ℚ → Option ℚ
  | [] => none
  | x :: xs => some (xs.foldl max x)

/-- One step of Python `max(..., key=key)`: the running best is replaced
only when the candidate's key is strictly greater, so the first maximal
element is kept. -/
def pyStep {α : Type} (key : α → ℚ) (b y : α) : α :=
  if key b < key y then y else b

/-- Model of Python `max(lst, key=key)`: `none` on the empty list (where
Python raises `ValueError`), otherwise the first element with maximal key. -/
def pyMaxBy {α : Type} (key : α → ℚ) : List α → Option α
  | [] => none
  | x :: xs => some (xs.foldl (pyStep key) x)

/-- One step of Python `min(..., key=abs)`: the running best is replaced
only when the candidate has strictly smaller absolute value, so the first
minimal element is kept. -/
def absMinStep (b y : ℚ) : ℚ :=
  if |y| < |b| then y else b

/-! ### Data model (`eli5.base`, as used by `html.py`) -/

/-- One weighted span: a feature name, a list of half-open character
ranges, and a signed weight (the `(feature, spans, weight)` triples of
`weighted_spans_data.weighted_spans`). -/
structure WeightedSpan where
  feature : String
  spans : List (ℕ × ℕ)
  weight : ℚ

/-- The argument of `render_weighted_spans`: a document, an analyzer tag
and the weighted spans. -/
structure WeightedSpansData where
  document : String
  analyzer : String
  weighted_spans : List WeightedSpan

/-- Target explanation as used by `_get_top_target`: optional probability
and score (`None` is `Option.none`). -/
structure TargetExplanation where
  proba : Option ℚ
  score : Option ℚ

/-- One candidate record of an unhashed feature: a dict with keys
`name` and `sign`. -/
structure Candidate where
  name : String
  sign : ℤ

/-- The polymorphic feature argument of `_format_feature`:
a `FormattedFeatureName` marker (which carries its own rendering, modelled
from the spec since `formatters/features.py` is absent from src), a list of
candidate records (unhashed feature), or a plain string.  The Python
shape check `'name' in x and 'sign' in x` is enforced by the `Candidate`
type and holds vacuously for the empty list. -/
inductive Feature where
  | formatted (value : String)
  | unhashed (candidates : List Candidate)
  | plain (value : String)

/-! ### `html_escape` -/

/-- Per-character action of `cgi.escape(text, quote=True)`:
`&`, `<`, `>` and `"` become entities, all other characters are kept. -/
def escChar (c : Char) : List Char :=
  if c = '&' then "&amp;".data
  else if c = '<' then "&lt;".data
  else if c = '>' then "&gt;".data
  else if c = '"' then "&quot;".data
  else [c]

/-- `html_escape`: `cgi.escape(text, quote=True)` replaces every `&` by
`&amp;`, then `<` by `&lt;`, `>` by `&gt;` and `"` by `&quot;`; because
`&` is replaced first and later replacements introduce no character that
an earlier pass rewrites, the sequential replaces act independently on
each input character. -/
def htmlEscape (s : String) : String := String.mk (s.data.flatMap escChar)

/-! ### Color mapping -/

/-- `_hue`: 120 (green) for strictly positive weight, else 0 (red). -/
def hue (weight : ℚ) : ℤ :=
  if 0 < weight then 120 else 0

/-- The lightness computed by `_weight_color`:
`rel_weight = (abs(weight) / weight_range) ** 0.7` and
`lightness = 1.0 - (1 - min_lightness) * rel_weight`.  The float power is
modelled as real exponentiation, hence the value lives in `ℝ`. -/
noncomputable def lightnessVal (weight weightRange minLightness : ℚ) : ℝ :=
  1 - ((1:ℝ) - (minLightness : ℝ)) * ((|weight| / weightRange : ℚ) : ℝ) ^ (0.7 : ℝ)

/-- The part of `_weight_color`'s output after the hue: the fixed
saturation `1` and the lightness, both rendered with `'{:.2%}'`. -/
noncomputable def satLightStr (weight weightRange minLightness : ℚ) : String :=
  formatPct 2 (1:ℚ) ++ ", " ++ formatPct 2 (lightnessVal weight weightRange minLightness) ++ ")"

/-- `_weight_color(weight, weight_range, min_lightness)`: the string
`'hsl({}, {:.2%}, {:.2%})'` filled with hue, saturation 1 and lightness. -/
noncomputable def weightColor (weight weightRange minLightness : ℚ) : String :=
  "hsl(" ++ toString (hue weight) ++ ", " ++ satLightStr weight weightRange minLightness

/-- Default absolute tolerance of `numpy.isclose`. -/
def npAtol : ℚ := 1e-8

/-- Default relative tolerance of `numpy.isclose`. -/
def npRtol : ℚ := 1e-5

/-- `numpy.isclose(a, b)` with default tolerances:
`|a - b| <= atol + rtol * |b|`. -/
def npIsClose (a b : ℚ) : Bool :=
  decide (|a - b| ≤ npAtol + npRtol * |b|)

/-- The numeric opacity computed by `_weight_opacity` before formatting:
`min_opacity + (1 - min_opacity) * abs(weight) / weight_range` with
`min_opacity = 0.8`. -/
def weightOpacityVal (weight weightRange : ℚ) : ℚ :=
  0.8 + (1 - 0.8) * (|weight| / weightRange)

/-- `_weight_opacity`: the opacity value rendered with `'{:.2f}'`. -/
def weightOpacity (weight weightRange : ℚ) : String :=
  formatFixed 2 (weightOpacityVal weight weightRange)

/-! ### `_colorize` and `render_weighted_spans` -/

/-- The opening tag emitted by `_colorize` (everything of its format
template up to the inserted token): the opacity-only tag when the weight
is numpy-close to zero, otherwise the tag with a background color from
`_weight_color` at `min_lightness=0.6` and the weight as a `'{:.3f}'`
title. -/
noncomputable def colorizePre (weight weightRange : ℚ) : String :=
  if npIsClose weight 0 then
    "<span style=\"opacity: " ++ weightOpacity weight weightRange ++ "\">"
  else
    "<span style=\"background-color: " ++ weightColor weight weightRange (0.6:ℚ) ++
      "; opacity: " ++ weightOpacity weight weightRange ++ "\" title=\"" ++
      formatFixed 3 weight ++ "\">"

/-- `_colorize(token, weight, weight_range)`: the format templates insert
the escaped token between the opening tag and `</span>`. -/
noncomputable def colorize (token : Char) (weight weightRange : ℚ) : String :=
  colorizePre weight weightRange ++ htmlEscape (String.singleton token) ++ "</span>"

/-- `Counter(f for f, _, _ in weighted_spans)[feature]`: the number of
weighted spans carrying a given feature, computed over the whole span
set. -/
def featureCount (wss : List WeightedSpan) (f : String) : ℕ :=
  (wss.filter (fun s => s.feature == f)).length

/-- `char_weights[start:end] += w` on a numpy array modelled as a list:
adds `w` at every index in the half-open range, indices beyond the list
being silently clipped as numpy slicing does. -/
def addRangeCW : List ℚ → ℕ → ℕ → ℚ → List ℚ
  | [], _, _, _ => []
  | x :: xs, a, b, w => (if a = 0 ∧ 0 < b then x + w else x) :: addRangeCW xs (a - 1) (b - 1) w

/-- One iteration of the range loop of `render_weighted_spans`.  The
Python loop mutates the unpacked variable `weight` in place
(`weight /= (end - start)`, `weight /= feature_counts[feature]`), so the
divisions carry over from one range of the span to the next; the
accumulator therefore holds the running weight next to the char-weight
array. -/
def spanStep (fc : String → ℕ) (preserveDensity : Bool) (feat : String)
    (acc : ℚ × List ℚ) (r : ℕ × ℕ) : ℚ × List ℚ :=
  let w := if preserveDensity then acc.1 / ((r.2 : ℚ) - (r.1 : ℚ)) else acc.1
  let w2 := w / (fc feat : ℚ)
  (w2, addRangeCW acc.2 r.1 r.2 w2)

/-- The inner loop of `render_weighted_spans` for one weighted span:
fold `spanStep` over the span's ranges, starting from the span's declared
weight, and keep the resulting char-weight array. -/
def procSpan (fc : String → ℕ) (preserveDensity : Bool) (cw : List ℚ) (s : WeightedSpan) :
    List ℚ :=
  (s.spans.foldl (spanStep fc preserveDensity s.feature) (s.weight, cw)).2

/-- The char-weight accumulation of `render_weighted_spans`: start from
`np.zeros(len(doc))` and process every weighted span in order. -/
def charWeights (docLen : ℕ) (wss : List WeightedSpan) (preserveDensity : Bool) : List ℚ :=
  wss.foldl (fun cw s => procSpan (featureCount wss) preserveDensity cw s)
    (List.replicate docLen 0)

/-- Modelled from the spec: the span-weight accumulation as §4.1 words it,
with a fresh `w = span.weight` taken for every `(start, end)` range of the
span ("For every (start, end) range belonging to a span: let
`w = span.weight` ..."), unlike the source's running mutation. -/
def procSpanSpec (fc : String → ℕ) (preserveDensity : Bool) (cw : List ℚ) (s : WeightedSpan) :
    List ℚ :=
  s.spans.foldl (fun cwAcc r =>
      let w := if preserveDensity then s.weight / ((r.2 : ℚ) - (r.1 : ℚ)) else s.weight
      let w2 := w / (fc s.feature : ℚ)
      addRangeCW cwAcc r.1 r.2 w2) cw

/-- The char-weight accumulation with the spec's fresh-`w` reading of the
range loop, for comparison with `charWeights`. -/
def charWeightsSpec (docLen : ℕ) (wss : List WeightedSpan) (preserveDensity : Bool) : List ℚ :=
  wss.foldl (fun cw s => procSpanSpec (featureCount wss) preserveDensity cw s)
    (List.replicate docLen 0)

/-- `render_weighted_spans(weighted_spans_data, preserve_density=None)`:
choose the density default from the analyzer when unset, accumulate char
weights, take `max(abs(x) for x in char_weights)` (`none` models the
`ValueError` Python raises on an empty sequence) and join the colorized
characters in document order. -/
noncomputable def renderWeightedSpans (d : WeightedSpansData) (preserveDensity : Option Bool) :
    Option String :=
  let pd := preserveDensity.getD (pyStartsWith d.analyzer "char")
  let cw := charWeights d.document.length d.weighted_spans pd
  match pyListMax (cw.map (fun x => |x|)) with
  | none => none
  | some weightRange =>
      some (String.join (List.zipWith (fun token w => colorize token w weightRange)
        d.document.data cw))

/-! ### `_remaining_weight_color` -/

/-- The `{'pos': 1, 'neg': -1}[pos_neg]` lookup; `none` models the
`KeyError` on any other key. -/
def posNegSign (posNeg : String) : Option ℚ :=
  if posNeg = "pos" then some 1
  else if posNeg = "neg" then some (-1)
  else none

/-- `_remaining_weight_color(ws, weight_range, pos_neg)`: if `ws` is empty
and `weight_range` is zero, color `sign` against range 1; if only `ws` is
empty, color `sign * weight_range`; otherwise color the first
minimal-`abs` coefficient of `ws` (Python `min(..., key=abs)`).  The final
call is `_weight_color` with its default `min_lightness=0.8`. -/
noncomputable def remainingWeightColor (ws : List (String × ℚ)) (weightRange : ℚ)
    (posNeg : String) : Option String :=
  (posNegSign posNeg).map (fun sign =>
    match ws with
    | [] =>
        if weightRange = 0 then weightColor sign 1 (0.8:ℚ)
        else weightColor (sign * weightRange) weightRange (0.8:ℚ)
    | p :: rest =>
        weightColor ((rest.map Prod.snd).foldl absMinStep p.2) weightRange (0.8:ℚ))

/-! ### Feature formatting -/

/-- Modelled from the spec: `format_signed` from `formatters/utils.py`
(absent from src) renders a candidate's name through the given formatter,
prefixed with `-` when the sign is negative and with nothing when it is
positive (§4.4). -/
def formatSigned (c : Candidate) (fmt : String → String) : String :=
  (if c.sign < 0 then "-" else "") ++ fmt c.name

/-- The position of a run of spaces inside the feature string, determining
the margin policy of its replacement marker. -/
inductive SpaceRunSide where
  | leading
  | trailing
  | interior

/-- The `replacer(n_spaces, side)` closure of `_format_single_feature`:
a span with a background tinted from the feature weight's hue, a
count-dependent title, and `&emsp;` repeated once per space; the leading
run gets right-margin-only spacing, the trailing run left-margin-only,
interior runs both. -/
def spaceReplacer (weight : ℚ) (nSpaces : ℕ) (side : SpaceRunSide) : String :=
  let margins : String × String :=
    match side with
    | .leading => ("0.1em", "0")
    | .trailing => ("0", "0.1em")
    | .interior => ("0.1em", "0.1em")
  let style := "background-color: hsl(" ++ toString (hue weight) ++ ", 80%, 70%)" ++ "; " ++
    "margin: 0 " ++ margins.1 ++ " 0 " ++ margins.2
  "<span style=\"" ++ style ++ "\" title=\"" ++
    (if nSpaces = 1 then "A space symbol" else toString nSpaces ++ " space symbols") ++
    "\">" ++ String.join (List.replicate nSpaces "&emsp;") ++ "</span>"

/-- Split a character list into maximal chunks: `Sum.inl` holds a run of
non-space characters, `Sum.inr` the length of a maximal run of spaces. -/
def chunkSpaces : List Char → List (Sum (List Char) ℕ)
  | [] => []
  | c :: cs =>
    let rest := chunkSpaces cs
    if c = ' ' then
      match rest with
      | Sum.inr n :: t => Sum.inr (n + 1) :: t
      | _ => Sum.inr 1 :: rest
    else
      match rest with
      | Sum.inl w :: t => Sum.inl (c :: w) :: t
      | _ => Sum.inl [c] :: rest

/-- Modelled from the spec: `replace_spaces` from `formatters/utils.py`
(absent from src) replaces every maximal run of consecutive spaces by
`repl n side`, where `side` records whether the run is at the start, the
end or the interior of the string (§4.4). -/
def replaceSpaces (s : String) (repl : ℕ → SpaceRunSide → String) : String :=
  let chunks := chunkSpaces s.data
  String.join (chunks.mapIdx (fun i ch =>
    match ch with
    | Sum.inl w => String.mk w
    | Sum.inr n =>
        repl n (if i = 0 then SpaceRunSide.leading
          else if i = chunks.length - 1 then SpaceRunSide.trailing
          else SpaceRunSide.interior)))

/-- `_format_single_feature`: escape the feature, and when
`hl_spaces` is set, replace space runs through the replacer. -/
def formatSingleFeature (feature : String) (weight : ℚ) (hlSpaces : Bool) : String :=
  let f := htmlEscape feature
  if hlSpaces then replaceSpaces f (spaceReplacer weight) else f

/-- `_format_unhashed_feature`: empty candidate list gives the empty
string; otherwise the first candidate is rendered signed through
`_format_single_feature` and the remaining candidates, each rendered
signed and escaped, are newline-joined into the title of a collapsed
`&hellip;` span. -/
def formatUnhashedFeature (feature : List Candidate) (weight : ℚ) (hlSpaces : Bool) : String :=
  match feature with
  | [] => ""
  | first :: rest =>
      let html := formatSigned first (fun x => formatSingleFeature x weight hlSpaces)
      if rest.isEmpty then html
      else html ++ " <span title=\"" ++
        String.intercalate "\n" (rest.map (fun f => htmlEscape (formatSigned f id))) ++
        "\">&hellip;</span>"

/-- `_format_feature`: dispatch on the shape of the feature.  A
`FormattedFeatureName` marker delegates to its own rendering; a list whose
members all carry `name` and `sign` keys (by typing, any `List Candidate`,
vacuously including `[]`) goes to `_format_unhashed_feature`; anything
else is a plain single feature. -/
def formatFeature (feature : Feature) (weight : ℚ) (hlSpaces : Bool) : String :=
  match feature with
  | .formatted v => v
  | .unhashed xs => formatUnhashedFeature xs weight hlSpaces
  | .plain s => formatSingleFeature s weight hlSpaces

/-! ### `_get_top_target` -/

/-- `_get_top_target(targets)`: if every target has a probability, the
first probability-maximal target; else if every target has a score, the
first score-maximal target; else `None` (the Python function falls off
its end).  `pyMaxBy` also returns `none` for the empty list, where Python
`max` raises. -/
def getTopTarget (targets : List TargetExplanation) : Option TargetExplanation :=
  if targets.all (fun t => t.proba.isSome) then
    pyMaxBy (fun t => t.proba.getD 0) targets
  else if targets.all (fun t => t.score.isSome) then
    pyMaxBy (fun t => t.score.getD 0) targets
  else none

/-! ### Helper lemmas -/

/-- Characterization of the fold behind `pyMaxBy`: the result is a member,
its key is maximal, and it is the first member whose key reaches the
maximum (Python `max` keeps the earlier element on ties). -/
theorem pyMaxFold_spec {α : Type} (key : α → ℚ) :
    ∀ (xs : List α) (x : α),
      xs.foldl (pyStep key) x ∈ x :: xs ∧
      (∀ y ∈ x :: xs, key y ≤ key (xs.foldl (pyStep key) x)) ∧
      (x :: xs).find? (fun y => decide (key (xs.foldl (pyStep key) x) ≤ key y)) =
        some (xs.foldl (pyStep key) x)
  | [], x => by
      refine ⟨List.mem_singleton_self x, ?_, ?_⟩
      · intro y hy
        rw [List.mem_singleton] at hy
        subst hy
        exact le_refl _
      · simp [List.find?]
  | y :: ys, x => by
      rw [List.foldl_cons]
      by_cases h : key x < key y
      · have hstep : pyStep key x y = y := if_pos h
        rw [hstep]
        obtain ⟨IH1, IH2, IH3⟩ := pyMaxFold_spec key ys y
        have hyM : key y ≤ key (ys.foldl (pyStep key) y) := IH2 y (List.mem_cons_self _ _)
        have hxM : key x < key (ys.foldl (pyStep key) y) := lt_of_lt_of_le h hyM
        refine ⟨List.mem_cons_of_mem x IH1, ?_, ?_⟩
        · intro z hz
          rcases List.mem_cons.mp hz with rfl | hz'
          · exact le_of_lt hxM
          · exact IH2 z hz'
        · rw [List.find?_cons_of_neg]
          · exact IH3
          · simp only [decide_eq_true_eq]
            exact not_le.mpr hxM
      · have hstep : pyStep key x y = x := if_neg h
        rw [hstep]
        obtain ⟨IH1, IH2, IH3⟩ := pyMaxFold_spec key ys x
        have hyx : key y ≤ key x := not_lt.mp h
        have hxM : key x ≤ key (ys.foldl (pyStep key) x) := IH2 x (List.mem_cons_self _ _)
        refine ⟨?_, ?_, ?_⟩
        · rcases List.mem_cons.mp IH1 with heq | hm
          · rw [heq]
            exact List.mem_cons_self _ _
          · exact List.mem_cons_of_mem _ (List.mem_cons_of_mem _ hm)
        · intro z hz
          rcases List.mem_cons.mp hz with rfl | hz'
          · exact hxM
          · rcases List.mem_cons.mp hz' with rfl | hz''
            · exact le_trans hyx hxM
            · exact IH2 z (List.mem_cons_of_mem _ hz'')
        · by_cases hp : key (ys.foldl (pyStep key) x) ≤ key x
          · have hxeq : x = ys.foldl (pyStep key) x := by
              rw [List.find?_cons_of_pos _ (by simpa using hp)] at IH3
              exact Option.some_inj.mp IH3
            rw [List.find?_cons_of_pos _ (by simpa using hp)]
            exact congrArg some hxeq
          · have hpy : ¬ key (ys.foldl (pyStep key) x) ≤ key y := fun hc => hp (hc.trans hyx)
            rw [List.find?_cons_of_neg _ (by simpa using hp),
              List.find?_cons_of_neg _ (by simpa using hpy)]
            rw [List.find?_cons_of_neg _ (by simpa using hp)] at IH3
            exact IH3

/-- `pyMaxBy` on a nonempty list returns a stable maximum. -/
theorem pyMaxBy_spec {α : Type} (key : α → ℚ) (l : List α) (hl : l ≠ []) :
    ∃ m, pyMaxBy key l = some m ∧ m ∈ l ∧ (∀ y ∈ l, key y ≤ key m) ∧
      l.find? (fun y => decide (key m ≤ key y)) = some m := by
  match l, hl with
  | x :: xs, _ =>
      obtain ⟨h1, h2, h3⟩ := pyMaxFold_spec key xs x
      exact ⟨_, rfl, h1, h2, h3⟩

/-- Characterization of the fold behind `min(..., key=abs)`: the result is
a member of minimal absolute value. -/
theorem absMinFold_spec :
    ∀ (xs : List ℚ) (x : ℚ),
      xs.foldl absMinStep x ∈ x :: xs ∧
      (∀ y ∈ x :: xs, |xs.foldl absMinStep x| ≤ |y|)
  | [], x => by
      refine ⟨List.mem_singleton_self x, ?_⟩
      intro y hy
      rw [List.mem_singleton] at hy
      subst hy
      exact le_refl _
  | y :: ys, x => by
      rw [List.foldl_cons]
      by_cases h : |y| < |x|
      · have hstep : absMinStep x y = y := if_pos h
        rw [hstep]
        obtain ⟨IH1, IH2⟩ := absMinFold_spec ys y
        have hyM := IH2 y (List.mem_cons_self _ _)
        refine ⟨List.mem_cons_of_mem x IH1, ?_⟩
        intro z hz
        rcases List.mem_cons.mp hz with rfl | hz'
        · exact le_of_lt (lt_of_le_of_lt hyM h)
        · exact IH2 z hz'
      · have hstep : absMinStep x y = x := if_neg h
        rw [hstep]
        obtain ⟨IH1, IH2⟩ := absMinFold_spec ys x
        have hxy : |x| ≤ |y| := not_lt.mp h
        have hxM := IH2 x (List.mem_cons_self _ _)
        refine ⟨?_, ?_⟩
        · rcases List.mem_cons.mp IH1 with heq | hm
          · rw [heq]
            exact List.mem_cons_self _ _
          · exact List.mem_cons_of_mem _ (List.mem_cons_of_mem _ hm)
        · intro z hz
          rcases List.mem_cons.mp hz with rfl | hz'
          · exact hxM
          · rcases List.mem_cons.mp hz' with rfl | hz''
            · exact le_trans hxM hxy
            · exact IH2 z (List.mem_cons_of_mem _ hz'')

/-- `addRangeCW` keeps the array length. -/
theorem addRangeCW_length :
    ∀ (cw : List ℚ) (a b : ℕ) (w : ℚ), (addRangeCW cw a b w).length = cw.length
  | [], _, _, _ => rfl
  | _ :: xs, a, b, w => by
      simp [addRangeCW, addRangeCW_length xs]

/-- The range loop of one span keeps the array length. -/
theorem spanFold_length (fc : String → ℕ) (pd : Bool) (feat : String) :
    ∀ (rs : List (ℕ × ℕ)) (acc : ℚ × List ℚ),
      ((rs.foldl (spanStep fc pd feat) acc).2).length = acc.2.length
  | [], _ => rfl
  | r :: rs, acc => by
      rw [List.foldl_cons, spanFold_length fc pd feat rs]
      simp [spanStep, addRangeCW_length]

/-- The span loop keeps the array length. -/
theorem cwFold_length (fc : String → ℕ) (pd : Bool) :
    ∀ (l : List WeightedSpan) (init : List ℚ),
      (l.foldl (fun cw s => procSpan fc pd cw s) init).length = init.length
  | [], _ => rfl
  | s :: ss, init => by
      rw [List.foldl_cons, cwFold_length fc pd ss]
      simp [procSpan, spanFold_length]

/-- `charWeights` has one entry per document character. -/
theorem charWeights_length (docLen : ℕ) (wss : List WeightedSpan) (pd : Bool) :
    (charWeights docLen wss pd).length = docLen := by
  rw [charWeights, cwFold_length]
  exact List.length_replicate docLen 0

/-- For a span with at most one range the running-weight loop agrees with
the spec's fresh-`w` reading: the divisions are applied exactly once. -/
theorem procSpan_eq_spec (fc : String → ℕ) (pd : Bool) (cw : List ℚ) (s : WeightedSpan)
    (h : s.spans.length ≤ 1) : procSpan fc pd cw s = procSpanSpec fc pd cw s := by
  rcases s with ⟨feat, spans, w⟩
  match spans, h with
  | [], _ => rfl
  | [r], _ => rfl

/-- `AmpOk l` means every ampersand in `l` opens one of the four entities
produced by `html_escape`. -/
inductive AmpOk : List Char → Prop where
  | nil : AmpOk []
  | other (c : Char) (l : List Char) : c ≠ '&' → AmpOk l → AmpOk (c :: l)
  | amp (l : List Char) : AmpOk l → AmpOk ('&' :: 'a' :: 'm' :: 'p' :: ';' :: l)
  | lt (l : List Char) : AmpOk l → AmpOk ('&' :: 'l' :: 't' :: ';' :: l)
  | gt (l : List Char) : AmpOk l → AmpOk ('&' :: 'g' :: 't' :: ';' :: l)
  | quo (l : List Char) : AmpOk l → AmpOk ('&' :: 'q' :: 'u' :: 'o' :: 't' :: ';' :: l)

/-- Prepending the escape of any single character preserves `AmpOk`. -/
theorem ampOk_escChar (c : Char) (l : List Char) (h : AmpOk l) : AmpOk (escChar c ++ l) := by
  unfold escChar
  by_cases h1 : c = '&'
  · simp only [h1, if_pos rfl]
    exact AmpOk.amp l h
  · by_cases h2 : c = '<'
    · simp only [h1, h2, ite_true, ite_false]
      exact AmpOk.lt l h
    · by_cases h3 : c = '>'
      · simp only [h1, h2, h3, ite_true, ite_false]
        exact AmpOk.gt l h
      · by_cases h4 : c = '"'
        · simp only [h1, h2, h3, h4, ite_true, ite_false]
          exact AmpOk.quo l h
        · simp only [h1, h2, h3, h4, ite_false]
          exact AmpOk.other c l h1 h

/-- Every character produced by `escChar` is markup-safe. -/
theorem escChar_safe (c : Char) (d : Char) (hd : d ∈ escChar c) :
    d ≠ '<' ∧ d ≠ '>' ∧ d ≠ '"' := by
  unfold escChar at hd
  by_cases h1 : c = '&' <;> by_cases h2 : c = '<' <;> by_cases h3 : c = '>' <;>
    by_cases h4 : c = '"' <;>
    simp [h1, h2, h3, h4] at hd <;>
    first
      | (rcases hd with rfl | rfl | rfl | rfl | rfl | rfl <;> decide)
      | (subst hd; exact ⟨h2, h3, h4⟩)

/-- The escaped form of any string satisfies `AmpOk`. -/
theorem ampOk_htmlEscape (s : String) : AmpOk (htmlEscape s).data := by
  show AmpOk (s.data.flatMap escChar)
  induction s.data with
  | nil => exact AmpOk.nil
  | cons c t ih =>
      rw [List.flatMap_cons]
      exact ampOk_escChar c _ ih

/-! ### Claims -/

/-- Claim C3: the claim says `render_weighted_spans` treats a zero-length
document or an empty span set safely; in fact for a zero-length document
the weight range is `max()` of an empty sequence, which raises
`ValueError` in Python (modelled by `none`), so rendering does not
complete. -/
theorem renderWeightedSpans_empty_doc :
    renderWeightedSpans ⟨"", "word", []⟩ none = none := rfl

/-- Claim C5: when `preserve_density` is unspecified (`None`), the value
used by `render_weighted_spans` is `analyzer.startswith('char')`; the
analyzers `"char"` and `"char_wb"` qualify, `"word"` does not. -/
theorem renderWeightedSpans_density_default (d : WeightedSpansData) :
    renderWeightedSpans d none =
      renderWeightedSpans d (some (pyStartsWith d.analyzer "char")) ∧
    pyStartsWith "char" "char" = true ∧
    pyStartsWith "char_wb" "char" = true ∧
    pyStartsWith "word" "char" = false :=
  ⟨rfl, by decide, by decide, by decide⟩

/-- Claim C8: under the precondition `0 < weight_range` and
`|weight| ≤ weight_range`, the opacity value equals
`0.8 + 0.2 * (|weight| / weight_range)`, lies in `[0.8, 1.0]`, and
`_weight_opacity` renders exactly this value with two decimals. -/
theorem weightOpacity_bounds (w r : ℚ) (hr : 0 < r) (hw : |w| ≤ r) :
    weightOpacityVal w r = 0.8 + 0.2 * (|w| / r) ∧
    0.8 ≤ weightOpacityVal w r ∧ weightOpacityVal w r ≤ 1 ∧
    weightOpacity w r = formatFixed 2 (weightOpacityVal w r) := by
  have h0 : (0:ℚ) ≤ |w| / r := div_nonneg (abs_nonneg w) (le_of_lt hr)
  have h1 : |w| / r ≤ 1 := (div_le_one hr).mpr hw
  refine ⟨by unfold weightOpacityVal; ring_nf, ?_, ?_, rfl⟩
  · unfold weightOpacityVal
    nlinarith
  · unfold weightOpacityVal
    nlinarith

/-- Claim C8 witness: the theorem applied at weight 1, range 2. -/
theorem weightOpacity_bounds_witness :
    weightOpacityVal 1 2 = 0.8 + 0.2 * (|(1:ℚ)| / 2) ∧
    0.8 ≤ weightOpacityVal 1 2 ∧ weightOpacityVal 1 2 ≤ 1 ∧
    weightOpacity 1 2 = formatFixed 2 (weightOpacityVal 1 2) :=
  weightOpacity_bounds 1 2 (by norm_num) (by norm_num)

/-- Claim C9: for a nonzero weight and positive range, `_weight_color`
gives hue 120 to the positive sign and hue 0 to the negative sign, while
the saturation/lightness tail of the color string is identical for `w`
and `-w` because it depends only on `|w|`. -/
theorem weightColor_sign_symmetry (w r mL : ℚ) (hw : w ≠ 0) (hr : 0 < r) :
    (0 < w → hue w = 120 ∧ hue (-w) = 0) ∧
    (w < 0 → hue w = 0 ∧ hue (-w) = 120) ∧
    lightnessVal w r mL = lightnessVal (-w) r mL ∧
    satLightStr w r mL = satLightStr (-w) r mL ∧
    weightColor w r mL = "hsl(" ++ toString (hue w) ++ ", " ++ satLightStr w r mL ∧
    weightColor (-w) r mL = "hsl(" ++ toString (hue (-w)) ++ ", " ++ satLightStr w r mL := by
  have habs : lightnessVal w r mL = lightnessVal (-w) r mL := by
    unfold lightnessVal
    rw [abs_neg]
  have hsl : satLightStr w r mL = satLightStr (-w) r mL := by
    unfold satLightStr
    rw [habs]
  refine ⟨?_, ?_, habs, hsl, rfl, by rw [hsl]; rfl⟩
  · intro hpos
    have hneg : ¬ (0:ℚ) < -w := by linarith
    constructor
    · simp [hue, hpos]
    · simp [hue, hneg]
  · intro hneg
    have hpos' : (0:ℚ) < -w := by linarith
    have hnot : ¬ (0:ℚ) < w := by linarith
    constructor
    · simp [hue, hnot]
    · simp [hue, hpos']

/-- Claim C9 witness: the theorem applied at weight 1, range 1,
min_lightness 0.8. -/
theorem weightColor_sign_symmetry_witness :
    (0 < (1:ℚ) → hue 1 = 120 ∧ hue (-1) = 0) ∧
    ((1:ℚ) < 0 → hue 1 = 0 ∧ hue (-1) = 120) ∧
    lightnessVal 1 1 0.8 = lightnessVal (-1) 1 0.8 ∧
    satLightStr 1 1 0.8 = satLightStr (-1) 1 0.8 ∧
    weightColor 1 1 0.8 = "hsl(" ++ toString (hue 1) ++ ", " ++ satLightStr 1 1 0.8 ∧
    weightColor (-1) 1 0.8 = "hsl(" ++ toString (hue (-1)) ++ ", " ++ satLightStr 1 1 0.8 :=
  weightColor_sign_symmetry 1 1 0.8 (by norm_num) (by norm_num)

/-- Claim C10: the empty list dispatches through the unhashed branch of
`_format_feature` (the shape check holds vacuously) and yields the empty
string, whatever the weight and the space-highlighting flag. -/
theorem formatFeature_empty_list (w : ℚ) (hl : Bool) :
    formatFeature (Feature.unhashed []) w hl = "" ∧
    formatFeature (Feature.unhashed []) w hl = formatUnhashedFeature [] w hl :=
  ⟨rfl, rfl⟩

/-- Claim C2: `html_escape` leaves no literal `<`, `>` or `"` in its
output and every remaining `&` opens one of the four entities; input text
reaches the markup of `_colorize` only through `html_escape` (the token
sits between fixed template parts), `_format_single_feature` without
space highlighting is exactly `html_escape`, and the collapsed-candidates
title of `_format_unhashed_feature` is built from `html_escape`d
candidate renderings. -/
theorem htmlEscape_markup_safety :
    (∀ s : String, ∀ c ∈ (htmlEscape s).data, c ≠ '<' ∧ c ≠ '>' ∧ c ≠ '"') ∧
    (∀ s : String, AmpOk (htmlEscape s).data) ∧
    (∀ (tok : Char) (w r : ℚ),
      colorize tok w r = colorizePre w r ++ htmlEscape (String.singleton tok) ++ "</span>") ∧
    (∀ (f : String) (w : ℚ), formatSingleFeature f w false = htmlEscape f) ∧
    (∀ (first : Candidate) (rest : List Candidate) (w : ℚ) (hl : Bool),
      formatUnhashedFeature (first :: rest) w hl =
        formatSigned first (fun x => formatSingleFeature x w hl) ++
          (if rest.isEmpty then "" else " <span title=\"" ++
            String.intercalate "\n" (rest.map (fun f => htmlEscape (formatSigned f id))) ++
            "\">&hellip;</span>")) := by
  refine ⟨?_, ampOk_htmlEscape, fun tok w r => rfl, fun f w => rfl, ?_⟩
  · intro s c hc
    have hc' : c ∈ s.data.flatMap escChar := hc
    rcases List.mem_flatMap.mp hc' with ⟨d, _, hcd⟩
    exact escChar_safe d c hcd
  · intro first rest w hl
    unfold formatUnhashedFeature
    rcases rest with _ | ⟨r1, rs⟩
    · simp
    · simp [List.isEmpty, String.append_assoc]

/-- Claim C4: the zero test of `_colorize` is `numpy.isclose` against 0,
which with default tolerances is `|weight| ≤ 1e-8` (not exact equality);
weights inside the tolerance get an opacity-only span, weights outside it
get background color (`min_lightness=0.6`), opacity and a three-decimal
title; and `render_weighted_spans` joins the per-character fragments in
original document order. -/
theorem colorize_isclose_branches :
    (∀ w : ℚ, npIsClose w 0 = true ↔ |w| ≤ 1/10^8) ∧
    (∀ (tok : Char) (w r : ℚ), |w| ≤ 1/10^8 →
      colorize tok w r = "<span style=\"opacity: " ++ weightOpacity w r ++ "\">" ++
        htmlEscape (String.singleton tok) ++ "</span>") ∧
    (∀ (tok : Char) (w r : ℚ), 1/10^8 < |w| →
      colorize tok w r = "<span style=\"background-color: " ++ weightColor w r (0.6:ℚ) ++
        "; opacity: " ++ weightOpacity w r ++ "\" title=\"" ++ formatFixed 3 w ++ "\">" ++
        htmlEscape (String.singleton tok) ++ "</span>") ∧
    (∀ (d : WeightedSpansData) (pd : Bool), d.document.length ≠ 0 →
      ∃ weightRange, renderWeightedSpans d (some pd) =
        some (String.join (List.zipWith (fun token w => colorize token w weightRange)
          d.document.data (charWeights d.document.length d.weighted_spans pd)))) := by
  have hiff : ∀ w : ℚ, npIsClose w 0 = true ↔ |w| ≤ 1/10^8 := by
    intro w
    simp only [npIsClose, npAtol, npRtol, decide_eq_true_eq, sub_zero, abs_zero, mul_zero,
      add_zero]
    norm_num
  refine ⟨hiff, ?_, ?_, ?_⟩
  · intro tok w r hw
    have hcl : npIsClose w 0 = true := (hiff w).mpr hw
    simp [colorize, colorizePre, hcl]
  · intro tok w r hw
    have hcl : npIsClose w 0 = false := by
      rcases Bool.eq_false_or_eq_true (npIsClose w 0) with h | h
      · exact absurd ((hiff w).mp h) (not_le.mpr hw)
      · exact h
    simp [colorize, colorizePre, hcl]
  · intro d pd hlen
    have hcw : (charWeights d.document.length d.weighted_spans pd).length =
        d.document.length := charWeights_length _ _ _
    have hne : (charWeights d.document.length d.weighted_spans pd).map (fun x => |x|) ≠ [] := by
      intro hnil
      apply hlen
      have hlen0 := congrArg List.length hnil
      simpa [hcw] using hlen0
    obtain ⟨m, t, hmt⟩ := List.exists_cons_of_ne_nil hne
    refine ⟨t.foldl max m, ?_⟩
    unfold renderWeightedSpans
    simp only [Option.getD_some]
    rw [hmt]
    rfl

/-- Claim C4 witness: the neutral branch of the theorem applied at
token `'a'`, weight 0, range 1. -/
theorem colorize_isclose_branches_witness :
    (|(0:ℚ)| ≤ 1/10^8) ∧
    colorize 'a' 0 1 = "<span style=\"opacity: " ++ weightOpacity 0 1 ++ "\">" ++
      htmlEscape (String.singleton 'a') ++ "</span>" :=
  ⟨by norm_num, colorize_isclose_branches.2.1 'a' 0 1 (by norm_num)⟩

/-- A single weighted span with two ranges, used to compare the source's
running-weight accumulation with the spec's fresh-weight reading. -/
def densitySpanDemo : List WeightedSpan := [⟨"f", [(0, 2), (2, 3)], 2⟩]

/-- Claim C1 (counterexample): for one span of weight 2 with ranges
`(0,2)` and `(2,3)` under `preserve_density`, the code divides the same
mutable `weight` variable again for the second range and yields
`[1, 1, 1]`, while the claim's fresh `w = span.weight` per range demands
`[1, 1, 2]` (`2 / 1 / 1 = 2` at position 2). -/
theorem charWeights_not_fresh_counterexample :
    charWeights 3 densitySpanDemo true = [1, 1, 1] ∧
    charWeightsSpec 3 densitySpanDemo true = [1, 1, 2] ∧
    charWeights 3 densitySpanDemo true ≠ charWeightsSpec 3 densitySpanDemo true := by
  refine ⟨?_, ?_, ?_⟩ <;>
    norm_num [charWeights, charWeightsSpec, densitySpanDemo, procSpan, procSpanSpec,
      spanStep, addRangeCW, featureCount, List.filter, List.replicate]

/-- Claim C1 (amended): when every span has at most one range — in
particular in both scenarios of the claim — the running-weight loop
agrees with the fresh-`w` accumulation, so each range adds
`span.weight / (range length if density) / feature_count`. -/
theorem charWeights_single_range_fresh (docLen : ℕ) (wss : List WeightedSpan) (pd : Bool)
    (h : ∀ s ∈ wss, s.spans.length ≤ 1) :
    charWeights docLen wss pd = charWeightsSpec docLen wss pd := by
  unfold charWeights charWeightsSpec
  exact List.foldl_ext _ _ _
    (fun cw s hs => procSpan_eq_spec (featureCount wss) pd cw s (h s hs))

/-- The two single-range spans of the claim's second scenario. -/
def twoSpanDemo : List WeightedSpan := [⟨"f", [(0, 1)], 1⟩, ⟨"f", [(1, 2)], 1⟩]

/-- The single span of the claim's first scenario. -/
def oneSpanDemo : List WeightedSpan := [⟨"f", [(0, 1)], 2⟩]

/-- Claim C1 witness: the amended theorem applied to the two-span
scenario, together with the concrete char weights of both scenarios:
`[0.5, 0.5]` for two spans of feature `"f"` with weight 1 each, and
`[2, 0]` for document `"ab"` with a single span of weight 2. -/
theorem charWeights_single_range_fresh_witness :
    charWeights 2 twoSpanDemo false = charWeightsSpec 2 twoSpanDemo false ∧
    charWeights 2 twoSpanDemo false = [1/2, 1/2] ∧
    charWeights 2 oneSpanDemo false = [2, 0] := by
  refine ⟨charWeights_single_range_fresh 2 twoSpanDemo false (by decide), ?_, ?_⟩ <;>
    norm_num [charWeights, twoSpanDemo, oneSpanDemo, procSpan, spanStep, addRangeCW,
      featureCount, List.filter, List.replicate]

/-- Claim C6: `_remaining_weight_color` colors `sign` against range 1 when
both the list and the range are degenerate, `sign * weight_range` when
only the list is empty, and otherwise a minimal-`|coef|` coefficient of
the remaining entries, always through `_weight_color` at its default
`min_lightness = 0.8`. -/
theorem remainingWeightColor_policy (ws : List (String × ℚ)) (r : ℚ) (pn : String) (sign : ℚ)
    (hpn : (pn = "pos" ∧ sign = 1) ∨ (pn = "neg" ∧ sign = -1)) :
    (ws = [] → r = 0 → remainingWeightColor ws r pn = some (weightColor sign 1 (0.8:ℚ))) ∧
    (ws = [] → r ≠ 0 →
      remainingWeightColor ws r pn = some (weightColor (sign * r) r (0.8:ℚ))) ∧
    (ws ≠ [] → ∃ c ∈ ws.map Prod.snd, (∀ y ∈ ws.map Prod.snd, |c| ≤ |y|) ∧
      remainingWeightColor ws r pn = some (weightColor c r (0.8:ℚ))) := by
  have hsign : posNegSign pn = some sign := by
    rcases hpn with ⟨h1, h2⟩ | ⟨h1, h2⟩ <;> subst h1 <;> subst h2 <;> rfl
  refine ⟨?_, ?_, ?_⟩
  · intro hws hr
    subst hws
    rw [remainingWeightColor, hsign]
    simp [hr]
  · intro hws hr
    subst hws
    rw [remainingWeightColor, hsign]
    simp [hr]
  · intro hws
    obtain ⟨p, rest, hp⟩ := List.exists_cons_of_ne_nil hws
    subst hp
    obtain ⟨hmem, hmin⟩ := absMinFold_spec (rest.map Prod.snd) p.2
    refine ⟨(rest.map Prod.snd).foldl absMinStep p.2, ?_, ?_, ?_⟩
    · rw [List.map_cons]
      exact hmem
    · intro y hy
      rw [List.map_cons] at hy
      exact hmin y hy
    · rw [remainingWeightColor, hsign]
      rfl

/-- Claim C6 witness: the empty, zero-range case at `'pos'` colors with
weight +1 against range 1, and weight +1 is the saturated green hue 120. -/
theorem remainingWeightColor_policy_witness :
    remainingWeightColor [] 0 "pos" = some (weightColor 1 1 (0.8:ℚ)) ∧ hue 1 = 120 :=
  ⟨(remainingWeightColor_policy [] 0 "pos" 1 (Or.inl ⟨rfl, rfl⟩)).1 rfl rfl,
    by norm_num [hue]⟩

/-- Claim C7: when every target carries a probability the result is the
first probability-maximal target; otherwise, when every target carries a
score, the first score-maximal target; otherwise nothing. -/
theorem getTopTarget_spec (ts : List TargetExplanation) (hne : ts ≠ []) :
    ((∀ t ∈ ts, t.proba.isSome = true) →
      ∃ m, getTopTarget ts = some m ∧ m ∈ ts ∧
        (∀ y ∈ ts, y.proba.getD 0 ≤ m.proba.getD 0) ∧
        ts.find? (fun y => decide (m.proba.getD 0 ≤ y.proba.getD 0)) = some m) ∧
    ((¬ ∀ t ∈ ts, t.proba.isSome = true) → (∀ t ∈ ts, t.score.isSome = true) →
      ∃ m, getTopTarget ts = some m ∧ m ∈ ts ∧
        (∀ y ∈ ts, y.score.getD 0 ≤ m.score.getD 0) ∧
        ts.find? (fun y => decide (m.score.getD 0 ≤ y.score.getD 0)) = some m) ∧
    ((¬ ∀ t ∈ ts, t.proba.isSome = true) → (¬ ∀ t ∈ ts, t.score.isSome = true) →
      getTopTarget ts = none) := by
  refine ⟨?_, ?_, ?_⟩
  · intro hp
    have hall : (ts.all fun t => t.proba.isSome) = true := List.all_eq_true.mpr hp
    rw [getTopTarget, if_pos hall]
    exact pyMaxBy_spec _ ts hne
  · intro hp hs
    have hnall : ¬ (ts.all fun t => t.proba.isSome) = true := fun hc => hp (List.all_eq_true.mp hc)
    have hall : (ts.all fun t => t.score.isSome) = true := List.all_eq_true.mpr hs
    rw [getTopTarget, if_neg hnall, if_pos hall]
    exact pyMaxBy_spec _ ts hne
  · intro hp hs
    have hnp : ¬ (ts.all fun t => t.proba.isSome) = true := fun hc => hp (List.all_eq_true.mp hc)
    have hns : ¬ (ts.all fun t => t.score.isSome) = true := fun hc => hs (List.all_eq_true.mp hc)
    rw [getTopTarget, if_neg hnp, if_neg hns]

/-- Targets with probabilities 0.3, 0.9, 0.9 (scores serve only to tell
the targets apart). -/
def demoTargets : List TargetExplanation :=
  [⟨some (3/10), some 1⟩, ⟨some (9/10), some 2⟩, ⟨some (9/10), some 3⟩]

/-- Claim C7 witness: the theorem applied to targets with probabilities
`[0.3, 0.9, 0.9]`; the selected target is the second one, the first
occurrence of the maximal probability. -/
theorem getTopTarget_spec_witness :
    (∃ m, getTopTarget demoTargets = some m ∧ m ∈ demoTargets ∧
      (∀ y ∈ demoTargets, y.proba.getD 0 ≤ m.proba.getD 0) ∧
      demoTargets.find? (fun y => decide (m.proba.getD 0 ≤ y.proba.getD 0)) = some m) ∧
    getTopTarget demoTargets = some ⟨some (9/10), some 2⟩ :=
  ⟨(getTopTarget_spec demoTargets (by simp [demoTargets])).1 (by decide),
    by norm_num [getTopTarget, demoTargets, pyMaxBy, pyStep]⟩

end Eli5
